import Mathlib

/-!
Shallow embedding of foolscap/logging/incident.py: the IncidentQualifier
triage predicate and the IncidentReporter lifecycle (incident_declared,
trailing_event, stop_recording, finished_recording), together with the
filename derivation used for incident artifacts.

Conventions of the embedding:
* A log event is reduced to the two fields the module reads, level and num.
* Severity values and timestamps are integers.
* The two sinks f1 (uncompressed working file) and f2 (compressed file)
  receive identical record sequences, written record by record to both.
* The asynchronous reactor is modelled by an explicit action list consumed
  by a step function: an action is either the delivery of one observed
  event to trailing_event, or the expiry of the TRAILING_DELAY timer.
* finished_recording is modelled as the list of filesystem and notification
  operations it performs, parameterised by whether closing the compressed
  sink succeeds; a raised close error propagates, so nothing after it runs.
-/

set_option maxRecDepth 100000

namespace FoolscapIncident

/-- Modelled from the spec: the fixed serious severity threshold named WEIRD,
taken from the external severity taxonomy module (foolscap.logging.levels),
which is outside the core source. Only its position in the severity order
matters to the code under verification. -/
def WEIRD : Int := 30

/-- A log event, reduced to the two fields read by incident.py: the severity
field ev[level] and the sequence number ev[num] assigned by the Logger. -/
structure Event where
  level : Int
  num : Int
deriving DecidableEq, Repr

/-- IncidentQualifier.check_event: returns True when ev[level] >= WEIRD,
otherwise False. It reads only the level field and mutates nothing. -/
def check_event (ev : Event) : Bool :=
  if ev.level ≥ WEIRD then true else false

/-- IncidentQualifier.event: the handler is an optional registered object
(None is falsy in the guard). The result is the list of declare_incident
calls the method makes: [ev] when the event qualifies and a handler is
registered, otherwise the empty list. -/
def IncidentQualifier.event {H : Type} (handler : Option H) (ev : Event) : List Event :=
  if check_event ev && handler.isSome then [ev] else []

/-- One pickled record as written to the sinks: either the header record
with types incident and the triggering event, or a wrapper record with the
tub id string, the capture time rx_time, and the wrapped event d. -/
inductive Record where
  | header (trigger : Event)
  | wrapper (source : String) (rx_time : Int) (d : Event)
deriving DecidableEq, Repr

/-- True exactly on header records. -/
def isHeader : Record → Bool
  | .header _ => true
  | .wrapper _ _ _ => false

/-- The num fields of the wrapper records of a record list, in order. -/
def recordNums (l : List Record) : List Int :=
  l.filterMap fun r =>
    match r with
    | .header _ => none
    | .wrapper _ _ e => some e.num

/-- The comparison used by events.sort(lambda a,b: cmp(a[num], b[num])):
ascending order on the num field. -/
def numLe (a b : Event) : Prop := a.num ≤ b.num

instance : DecidableRel numLe :=
  fun a b => inferInstanceAs (Decidable (a.num ≤ b.num))

instance : IsTotal Event numLe := ⟨fun a b => Int.le_total a.num b.num⟩

instance : IsTrans Event numLe := ⟨fun _ _ _ hab hbc => Int.le_trans hab hbc⟩

/-- The in-place events.sort of incident_declared: an ascending stable sort
of the buffered events by their num field. -/
def sortEvents (events : List Event) : List Event :=
  events.insertionSort numLe

/-- The record sequences written to the two sinks by incident_declared. -/
structure DeclaredSinks where
  f1 : List Record
  f2 : List Record
deriving DecidableEq, Repr

/-- IncidentReporter.incident_declared, as the records it writes: the header
record is pickled to f1 and to f2 first, then the buffered history is
copied, sorted ascending by num, each event wrapped with the tub id and the
capture time now, and each wrapper is pickled to f1 and to f2. -/
def incident_declared (tubid_s : String) (now : Int) (triggering_event : Event)
    (buffered : List Event) : DeclaredSinks :=
  let hdr := Record.header triggering_event
  let wrappers := (sortEvents buffered).map fun e => Record.wrapper tubid_s now e
  { f1 := hdr :: wrappers, f2 := hdr :: wrappers }

/-- TRAILING_EVENT_LIMIT = 100: gather at most 100 post-trigger events. -/
def TRAILING_EVENT_LIMIT : Int := 100

/-- TRAILING_DELAY = 5 seconds: the one-shot timer armed at declaration. -/
def TRAILING_DELAY : ℚ := 5

/-- The mutable reporter state after incident_declared has returned:
the still_recording flag, the remaining_events counter, whether the
TRAILING_DELAY timer is still pending, whether the reporter is still a
registered observer of the Logger, how many times finished_recording has
been scheduled through eventually, and the trailing wrapper records written
so far (the same sequence goes to both sinks). -/
structure ReporterState where
  still_recording : Bool
  remaining_events : Int
  timerActive : Bool
  observerRegistered : Bool
  finishedScheduled : Nat
  written : List Record
deriving DecidableEq, Repr

/-- The state established by incident_declared: still_recording = True,
remaining_events = TRAILING_EVENT_LIMIT, observer registered, timer armed,
no finalisation scheduled, no trailing records yet. -/
def initReporter : ReporterState :=
  { still_recording := true
    remaining_events := TRAILING_EVENT_LIMIT
    timerActive := true
    observerRegistered := true
    finishedScheduled := 0
    written := [] }

/-- IncidentReporter.stop_recording: clears still_recording, cancels the
timer when it is still pending, removes the observer registration, and
schedules finished_recording through eventually (counted, never inline). -/
def stop_recording (s : ReporterState) : ReporterState :=
  { s with still_recording := false
           timerActive := false
           observerRegistered := false
           finishedScheduled := s.finishedScheduled + 1 }

/-- IncidentReporter.trailing_event: returns at once when still_recording
is cleared; otherwise decrements remaining_events, and while the result is
still nonnegative wraps the event (capture time rx) and writes it to both
sinks; once the counter goes negative it calls stop_recording instead. -/
def trailing_event (tubid_s : String) (s : ReporterState) (rx : Int) (ev : Event) :
    ReporterState :=
  if s.still_recording = false then s
  else if s.remaining_events - 1 ≥ 0 then
    { s with remaining_events := s.remaining_events - 1
             written := s.written ++ [Record.wrapper tubid_s rx ev] }
  else
    stop_recording { s with remaining_events := s.remaining_events - 1 }

/-- One reactor occurrence touching the reporter: either the Logger
delivers an observed event at capture time rx, or the TRAILING_DELAY timer
expires. -/
inductive Action where
  | deliver (rx : Int) (ev : Event)
  | timerFires
deriving DecidableEq, Repr

/-- True exactly on delivery actions. -/
def isDeliver : Action → Bool
  | .deliver _ _ => true
  | .timerFires => false

/-- One reactor step: a delivery runs trailing_event; a timer expiry runs
stop_recording, but only when the timer is still pending (a cancelled timer
never fires). -/
def step (tubid_s : String) (s : ReporterState) : Action → ReporterState
  | .deliver rx ev => trailing_event tubid_s s rx ev
  | .timerFires => if s.timerActive then stop_recording { s with timerActive := false } else s

/-- Run the reporter over a list of reactor occurrences in order. -/
def run (tubid_s : String) (s : ReporterState) (as : List Action) : ReporterState :=
  as.foldl (step tubid_s) s

/-- The wrapper records produced by the delivery actions of a trace, in
delivery order. -/
def deliveredRecords (tubid_s : String) (as : List Action) : List Record :=
  as.filterMap fun a =>
    match a with
    | .deliver rx ev => some (Record.wrapper tubid_s rx ev)
    | .timerFires => none

/-- A fixed below-threshold event used for concrete traces. -/
def evA : Event := { level := 20, num := 1 }

/-- A trace of n deliveries of evA at capture time 0. -/
def manyEvents (n : Nat) : List Action :=
  List.replicate n (Action.deliver 0 evA)

/-- The full record sequence a sink has received once a trace has run: the
records of incident_declared followed by the trailing wrapper records. -/
def artifact (tubid_s : String) (now : Int) (triggering_event : Event)
    (buffered : List Event) (as : List Action) : List Record :=
  (incident_declared tubid_s now triggering_event buffered).f1 ++
    (run tubid_s initReporter as).written

/-- One externally visible operation of finished_recording. -/
inductive FinishOp where
  | closeCompressed (success : Bool)
  | closeWorking
  | unlinkWorking
  | notifyIncidentRecorded (path : String)
deriving DecidableEq, Repr

/-- IncidentReporter.finished_recording as the ordered operations it
performs, given whether f2.close() succeeds: on success it closes f2, then
closes f1, then unlinks the working file, then schedules
logger.incident_recorded with the bz2 path through eventually; when
f2.close() raises, the exception propagates out of the method and none of
the later operations run. -/
def finished_recording (abs_filename_bz2 : String) (f2CloseOk : Bool) : List FinishOp :=
  if f2CloseOk then
    [FinishOp.closeCompressed true, FinishOp.closeWorking, FinishOp.unlinkWorking,
     FinishOp.notifyIncidentRecorded abs_filename_bz2]
  else
    [FinishOp.closeCompressed false]

/-- Whether the working file still exists after the given operations, given
that it existed before: only an unlink removes it. -/
def workingFileExistsAfter (existsBefore : Bool) (ops : List FinishOp) : Bool :=
  existsBefore && !(ops.contains FinishOp.unlinkWorking)

/-- How many incident_recorded notifications a list of operations issues. -/
def countNotifications (ops : List FinishOp) : Nat :=
  ops.countP fun o =>
    match o with
    | FinishOp.notifyIncidentRecorded _ => true
    | _ => false

/-- Modelled from the spec: the external filename-safe random-token
encoding (the base32 module of the repository is outside the core source).
The alphabet of token characters, pairwise distinct and filesystem safe. -/
def tokenAlphabet : List Char :=
  "ybndrfg8ejkmcpqx".toList

/-- Modelled from the spec: one random byte rendered as two fixed-width
token characters. -/
def encodeByte (b : Nat) : List Char :=
  [tokenAlphabet.getD (b / 16 % 16) '0', tokenAlphabet.getD (b % 16) '0']

/-- Modelled from the spec: the characters of the token encoding of the
random bytes, fixed width per byte. -/
def tokenChars (bs : List Nat) : List Char :=
  (bs.map encodeByte).flatten

/-- Modelled from the spec: the filesystem-safe token string encoding the
random bytes drawn by os.urandom(4). -/
def tokenEncode (bs : List Nat) : String :=
  String.mk (tokenChars bs)

/-- The filename derivation of incident_declared: the pattern
incident-TIME-TOKEN.flog, where TIME is the strftime rendering of the local
time (kept abstract as a string) and TOKEN encodes the 4 random bytes. -/
def incidentFilename (timeStr : String) (randomBytes : List Nat) : String :=
  "incident-" ++ timeStr ++ "-" ++ tokenEncode randomBytes ++ ".flog"

/-- The invariant maintained by every reachable reporter state. -/
def Inv (s : ReporterState) : Prop :=
  -1 ≤ s.remaining_events ∧
  s.remaining_events ≤ TRAILING_EVENT_LIMIT ∧
  (s.still_recording = true →
    0 ≤ s.remaining_events ∧ s.finishedScheduled = 0 ∧
    s.timerActive = true ∧ s.observerRegistered = true) ∧
  (s.still_recording = false →
    s.finishedScheduled = 1 ∧ s.timerActive = false ∧ s.observerRegistered = false) ∧
  (0 ≤ s.remaining_events →
    (s.written.length : Int) = TRAILING_EVENT_LIMIT - s.remaining_events) ∧
  (s.remaining_events < 0 → (s.written.length : Int) = TRAILING_EVENT_LIMIT) ∧
  (∀ r ∈ s.written, isHeader r = false)

/-- stop_recording called from a state that is still recording preserves
the invariant. -/
theorem inv_stop (s : ReporterState) (hrec : s.still_recording = true) (h : Inv s) :
    Inv (stop_recording s) := by
  obtain ⟨h1, h2, h3, h4, h5, h6, h7⟩ := h
  obtain ⟨hr0, hfs, hta, hobs⟩ := h3 hrec
  refine ⟨h1, h2, ?_, ?_, h5, h6, h7⟩
  · intro hc
    simp [stop_recording] at hc
  · intro _
    refine ⟨?_, rfl, rfl⟩
    simp [stop_recording, hfs]

/-- trailing_event preserves the invariant. -/
theorem inv_trailing (tubid_s : String) (s : ReporterState) (rx : Int) (ev : Event)
    (h : Inv s) : Inv (trailing_event tubid_s s rx ev) := by
  by_cases hrec : s.still_recording = false
  · simpa [trailing_event, hrec] using h
  · have hrec' : s.still_recording = true := by
      revert hrec
      cases s.still_recording <;> simp
    obtain ⟨h1, h2, h3, h4, h5, h6, h7⟩ := h
    obtain ⟨hr0, hfs, hta, hobs⟩ := h3 hrec'
    have hlen : (s.written.length : Int) = TRAILING_EVENT_LIMIT - s.remaining_events :=
      h5 hr0
    by_cases hge : s.remaining_events - 1 ≥ 0
    · have hstep : trailing_event tubid_s s rx ev =
          { s with remaining_events := s.remaining_events - 1
                   written := s.written ++ [Record.wrapper tubid_s rx ev] } := by
        simp [trailing_event, hrec', hge]
      rw [hstep]
      refine ⟨?_, ?_, ?_, ?_, ?_, ?_, ?_⟩
      · show -1 ≤ s.remaining_events - 1
        omega
      · show s.remaining_events - 1 ≤ TRAILING_EVENT_LIMIT
        omega
      · intro _
        refine ⟨?_, hfs, hta, hobs⟩
        show (0 : Int) ≤ s.remaining_events - 1
        omega
      · intro hc
        exact absurd hc hrec
      · intro _
        show ((s.written ++ [Record.wrapper tubid_s rx ev]).length : Int) =
          TRAILING_EVENT_LIMIT - (s.remaining_events - 1)
        simp only [List.length_append, List.length_cons, List.length_nil]
        push_cast
        omega
      · intro hc
        have hc' : s.remaining_events - 1 < 0 := hc
        exact absurd hc' (by omega)
      · intro r hr
        rcases List.mem_append.mp hr with hmem | hmem
        · exact h7 r hmem
        · simp only [List.mem_singleton] at hmem
          subst hmem
          rfl
    · have hstep : trailing_event tubid_s s rx ev =
          stop_recording { s with remaining_events := s.remaining_events - 1 } := by
        simp [trailing_event, hrec', hge]
      rw [hstep]
      refine ⟨?_, ?_, ?_, ?_, ?_, ?_, ?_⟩
      · show -1 ≤ s.remaining_events - 1
        omega
      · show s.remaining_events - 1 ≤ TRAILING_EVENT_LIMIT
        omega
      · intro hc
        simp [stop_recording] at hc
      · intro _
        refine ⟨?_, rfl, rfl⟩
        show s.finishedScheduled + 1 = 1
        rw [hfs]
      · intro hc
        exact absurd hc hge
      · intro _
        show (s.written.length : Int) = TRAILING_EVENT_LIMIT
        omega
      · exact h7

/-- Every reactor step preserves the invariant. -/
theorem inv_step (tubid_s : String) (s : ReporterState) (a : Action) (h : Inv s) :
    Inv (step tubid_s s a) := by
  cases a with
  | deliver rx ev => exact inv_trailing tubid_s s rx ev h
  | timerFires =>
    by_cases hta : s.timerActive = true
    · have hrec : s.still_recording = true := by
        rcases hsr : s.still_recording with _ | _
        · exact absurd ((h.2.2.2.1 hsr).2.1) (by simp [hta])
        · rfl
      simp only [step, hta, if_true]
      exact inv_stop s hrec h
    · have hta' : s.timerActive = false := by
        revert hta
        cases s.timerActive <;> simp
      simpa [step, hta'] using h

/-- The invariant holds along any run. -/
theorem inv_run (tubid_s : String) (as : List Action) :
    ∀ s : ReporterState, Inv s → Inv (run tubid_s s as) := by
  induction as with
  | nil => exact fun s h => h
  | cons a t ih => exact fun s h => ih (step tubid_s s a) (inv_step tubid_s s a h)

/-- The initial reporter state satisfies the invariant. -/
theorem inv_init : Inv initReporter := by
  refine ⟨by decide, by decide, fun _ => ⟨by decide, rfl, rfl, rfl⟩, ?_, fun _ => by decide,
    ?_, ?_⟩
  · intro hc
    exact absurd hc (by decide)
  · intro hc
    exact absurd hc (by decide)
  · intro r hr
    simp [initReporter] at hr

/-- Once still_recording is cleared and the timer is gone, a step changes
nothing. -/
theorem step_frozen (tubid_s : String) (s : ReporterState) (a : Action)
    (hs : s.still_recording = false) (ht : s.timerActive = false) :
    step tubid_s s a = s := by
  cases a with
  | deliver rx ev => simp [step, trailing_event, hs]
  | timerFires => simp [step, ht]

/-- Once still_recording is cleared and the timer is gone, a whole run
changes nothing. -/
theorem run_frozen (tubid_s : String) (as : List Action) :
    ∀ s : ReporterState, s.still_recording = false → s.timerActive = false →
      run tubid_s s as = s := by
  induction as with
  | nil => exact fun s _ _ => rfl
  | cons a t ih =>
    intro s hs ht
    show run tubid_s (step tubid_s s a) t = s
    rw [step_frozen tubid_s s a hs ht]
    exact ih s hs ht

/-- A trace made of deliveries produces exactly one record per delivery. -/
theorem deliveredRecords_length (tubid_s : String) (as : List Action)
    (h : ∀ a ∈ as, isDeliver a = true) :
    (deliveredRecords tubid_s as).length = as.length := by
  induction as with
  | nil => rfl
  | cons a t ih =>
    cases a with
    | deliver rx ev =>
      simp only [deliveredRecords, List.filterMap_cons, List.length_cons]
      have := ih fun b hb => h b (List.mem_cons_of_mem _ hb)
      simp only [deliveredRecords] at this
      simp [this]
    | timerFires =>
      have := h _ (List.mem_cons_self _ _)
      simp [isDeliver] at this

/-- Running a trace of deliveries that fits inside the remaining-events
budget writes every delivered record and never stops recording. -/
theorem run_delivers (tubid_s : String) (as : List Action) :
    ∀ s : ReporterState, (∀ a ∈ as, isDeliver a = true) →
      s.still_recording = true → (as.length : Int) ≤ s.remaining_events →
      run tubid_s s as =
        { s with remaining_events := s.remaining_events - as.length
                 written := s.written ++ deliveredRecords tubid_s as } := by
  induction as with
  | nil =>
    intro s _ _ _
    show s = _
    simp [deliveredRecords]
  | cons a t ih =>
    intro s hall hrec hlen
    cases a with
    | timerFires =>
      have := hall _ (List.mem_cons_self _ _)
      simp [isDeliver] at this
    | deliver rx ev =>
      have hlen' : ((t.length : Int) + 1) ≤ s.remaining_events := by
        have : (((Action.deliver rx ev :: t).length : Nat) : Int) ≤ s.remaining_events := hlen
        simp only [List.length_cons] at this
        push_cast at this
        omega
      have hge : s.remaining_events - 1 ≥ 0 := by omega
      have hstep : trailing_event tubid_s s rx ev =
          { s with remaining_events := s.remaining_events - 1
                   written := s.written ++ [Record.wrapper tubid_s rx ev] } := by
        simp [trailing_event, hrec, hge]
      have hih := ih
        { s with remaining_events := s.remaining_events - 1
                 written := s.written ++ [Record.wrapper tubid_s rx ev] }
        (fun b hb => hall b (List.mem_cons_of_mem _ hb))
        hrec
        (by
          show (t.length : Int) ≤ s.remaining_events - 1
          omega)
      show run tubid_s (trailing_event tubid_s s rx ev) t = _
      rw [hstep, hih]
      simp only [ReporterState.mk.injEq]
      refine ⟨trivial, ?_, trivial, trivial, trivial, ?_⟩
      · simp only [List.length_cons]
        push_cast
        omega
      · simp [deliveredRecords, List.filterMap_cons, List.append_assoc]

/-- C6: check_event returns true exactly when the level of the event is at
least the WEIRD threshold (it is a pure function of the event in this
embedding, reading only the level field), and an event whose level is below
the threshold never makes IncidentQualifier.event invoke the handler
declare_incident operation, even when a handler is registered. -/
theorem C6_check_event_predicate :
    (∀ ev : Event, check_event ev = true ↔ ev.level ≥ WEIRD) ∧
    (∀ (H : Type) (handler : Option H) (ev : Event), ev.level < WEIRD →
      IncidentQualifier.event handler ev = []) := by
  constructor
  · intro ev
    by_cases h : ev.level ≥ WEIRD <;> simp [check_event, h]
  · intro H handler ev hlt
    have hfalse : check_event ev = false := by
      simp only [check_event, ite_eq_right_iff]
      intro hc
      omega
    simp [IncidentQualifier.event, hfalse]

/-- C6 witness: the threshold case level = 30 qualifies, and a handler
receives no declaration for a below-threshold event of level 20. -/
theorem C6_check_event_predicate_witness :
    (check_event { level := 30, num := 0 } = true ↔
      ({ level := 30, num := 0 } : Event).level ≥ WEIRD) ∧
    IncidentQualifier.event (some ()) { level := 20, num := 0 } = [] :=
  ⟨C6_check_event_predicate.1 { level := 30, num := 0 },
   C6_check_event_predicate.2 Unit (some ()) { level := 20, num := 0 } (by decide)⟩

/-- C7: a qualifying event (check_event true) delivered while no handler is
registered (the None handler, falsy in the guard) is dropped silently: the
call makes no declare_incident invocation, and the embedded function is
total, so it returns normally. -/
theorem C7_no_handler_silent_drop (H : Type) (ev : Event)
    (hq : check_event ev = true) :
    IncidentQualifier.event (none : Option H) ev = [] := by
  simp [IncidentQualifier.event]

/-- C7 witness: a level 30 event qualifies yet is dropped with no handler. -/
theorem C7_no_handler_silent_drop_witness :
    IncidentQualifier.event (none : Option Unit) { level := 30, num := 7 } = [] :=
  C7_no_handler_silent_drop Unit { level := 30, num := 7 } (by decide)

/-- C1: finished_recording unlinks the working file only after the
compressed sink closed successfully: when f2.close() raises, no unlink is
performed and the working copy at abs_filename still exists afterwards; and
whenever an unlink is performed, the close succeeded and the successful
close strictly precedes the unlink in the operation order. -/
theorem C1_close_before_unlink (path : String) (f2CloseOk : Bool) :
    (f2CloseOk = false →
      FinishOp.unlinkWorking ∉ finished_recording path f2CloseOk ∧
      workingFileExistsAfter true (finished_recording path f2CloseOk) = true) ∧
    (FinishOp.unlinkWorking ∈ finished_recording path f2CloseOk →
      f2CloseOk = true ∧
      ∃ pre post, finished_recording path f2CloseOk =
          pre ++ FinishOp.unlinkWorking :: post ∧
        FinishOp.closeCompressed true ∈ pre) := by
  cases f2CloseOk
  · constructor
    · intro _
      constructor
      · simp [finished_recording]
      · rfl
    · intro hmem
      simp [finished_recording] at hmem
  · constructor
    · intro hc
      exact absurd hc (by simp)
    · intro _
      refine ⟨rfl, [FinishOp.closeCompressed true, FinishOp.closeWorking],
        [FinishOp.notifyIncidentRecorded path], rfl, by simp⟩

/-- C1 witness: with a failing compressed close the working file survives,
and with a successful one the unlink is preceded by the close. -/
theorem C1_close_before_unlink_witness :
    (FinishOp.unlinkWorking ∉ finished_recording "a.flog.bz2" false ∧
      workingFileExistsAfter true (finished_recording "a.flog.bz2" false) = true) ∧
    (true = true ∧
      ∃ pre post, finished_recording "a.flog.bz2" true =
          pre ++ FinishOp.unlinkWorking :: post ∧
        FinishOp.closeCompressed true ∈ pre) :=
  ⟨(C1_close_before_unlink "a.flog.bz2" false).1 rfl,
   (C1_close_before_unlink "a.flog.bz2" true).2 (by decide)⟩

/-- C3: incident_declared writes the replayed wrapper records to both
sinks sorted ascending by num regardless of buffer order: the two sinks
receive identical sequences, the records after the header are exactly the
wrappers of the sorted buffer, the sorted buffer is ascending in num and a
permutation of the buffer; in particular the buffer order num = 5, 3, 4
yields replayed records with num = 3, 4, 5. -/
theorem C3_replay_sorted_by_num :
    (∀ (tubid_s : String) (now : Int) (trigger : Event) (buffered : List Event),
      (incident_declared tubid_s now trigger buffered).f2 =
        (incident_declared tubid_s now trigger buffered).f1 ∧
      (incident_declared tubid_s now trigger buffered).f1.tail =
        (sortEvents buffered).map (fun e => Record.wrapper tubid_s now e) ∧
      List.Sorted numLe (sortEvents buffered) ∧
      (sortEvents buffered).Perm buffered) ∧
    recordNums (incident_declared "tub" 0 { level := 30, num := 9 }
      [{ level := 20, num := 5 }, { level := 20, num := 3 },
       { level := 20, num := 4 }]).f1 = [3, 4, 5] := by
  constructor
  · intro tubid_s now trigger buffered
    exact ⟨rfl, rfl, List.sorted_insertionSort numLe buffered,
      List.perm_insertionSort numLe buffered⟩
  · decide

/-- C4: for every declared incident and every trailing trace, the first
record each sink receives is the header record carrying exactly the
triggering event, the header record appears exactly once per sink, and
every record after it is a wrapper record. -/
theorem C4_header_first_and_once (tubid_s : String) (now : Int) (trigger : Event)
    (buffered : List Event) (as : List Action) :
    (incident_declared tubid_s now trigger buffered).f2 =
      (incident_declared tubid_s now trigger buffered).f1 ∧
    (artifact tubid_s now trigger buffered as).head? =
      some (Record.header trigger) ∧
    (artifact tubid_s now trigger buffered as).countP isHeader = 1 ∧
    ∀ r ∈ (artifact tubid_s now trigger buffered as).tail, isHeader r = false := by
  have heq : artifact tubid_s now trigger buffered as =
      Record.header trigger ::
        (((sortEvents buffered).map (fun e => Record.wrapper tubid_s now e)) ++
          (run tubid_s initReporter as).written) := rfl
  have hrest : ∀ r ∈ ((sortEvents buffered).map
      (fun e => Record.wrapper tubid_s now e)) ++
      (run tubid_s initReporter as).written, isHeader r = false := by
    intro r hr
    rcases List.mem_append.mp hr with hmem | hmem
    · rcases List.mem_map.mp hmem with ⟨e, _, he⟩
      rw [← he]
      rfl
    · exact (inv_run tubid_s as initReporter inv_init).2.2.2.2.2.2 r hmem
  refine ⟨rfl, by rw [heq]; rfl, ?_, ?_⟩
  · rw [heq, List.countP_cons_of_pos _ _ (by rfl),
      List.countP_eq_zero.mpr (fun r hr => by simp [hrest r hr])]
  · rw [heq]
    simpa using hrest

/-- C4 witness: on a one-event buffer and the empty trailing trace, the
record after the header is a wrapper. -/
theorem C4_header_first_and_once_witness :
    isHeader (Record.wrapper "tub" 0 { level := 20, num := 1 }) = false :=
  (C4_header_first_and_once "tub" 0 { level := 30, num := 2 }
      [{ level := 20, num := 1 }] []).2.2.2
    (Record.wrapper "tub" 0 { level := 20, num := 1 }) (by decide)

/-- C2: over any reactor trace at most TRAILING_EVENT_LIMIT trailing
wrapper records are written to the sinks; and on a trace of 150 deliveries
arriving while still recording and before any timer expiry, exactly 100 are
written, stop_recording has run through the count path (finalisation
scheduled once, recording over) and the timer was cancelled before it could
expire. -/
theorem C2_count_bounded_termination :
    (∀ (tubid_s : String) (as : List Action),
      ((run tubid_s initReporter as).written.length : Int) ≤ TRAILING_EVENT_LIMIT) ∧
    (run "tub" initReporter (manyEvents 150)).written.length = 100 ∧
    (run "tub" initReporter (manyEvents 150)).finishedScheduled = 1 ∧
    (run "tub" initReporter (manyEvents 150)).still_recording = false ∧
    (run "tub" initReporter (manyEvents 150)).timerActive = false := by
  refine ⟨?_, by decide, by decide, by decide, by decide⟩
  intro tubid_s as
  obtain ⟨h1, h2, h3, h4, h5, h6, h7⟩ := inv_run tubid_s as initReporter inv_init
  by_cases hr : 0 ≤ (run tubid_s initReporter as).remaining_events
  · have := h5 hr
    omega
  · have := h6 (by omega)
    omega

/-- C5: finished_recording is scheduled at most once over any reactor
trace; in the two races where both termination paths fire in close
succession (count exhausts then the timer attempts to fire, or the timer
fires first and deliveries keep arriving) it is scheduled exactly once; and
one successful finished_recording run issues exactly one incident_recorded
notification. -/
theorem C5_finalize_exactly_once :
    (∀ (tubid_s : String) (as : List Action),
      (run tubid_s initReporter as).finishedScheduled ≤ 1) ∧
    (run "tub" initReporter
      (manyEvents 101 ++ [Action.timerFires])).finishedScheduled = 1 ∧
    (run "tub" initReporter
      (Action.timerFires :: manyEvents 101)).finishedScheduled = 1 ∧
    countNotifications (finished_recording "a.flog.bz2" true) = 1 := by
  refine ⟨?_, by decide, by decide, by decide⟩
  intro tubid_s as
  obtain ⟨h1, h2, h3, h4, h5, h6, h7⟩ := inv_run tubid_s as initReporter inv_init
  rcases hsr : (run tubid_s initReporter as).still_recording with _ | _
  · rw [(h4 hsr).1]
  · rw [(h3 hsr).2.1]
    omega

/-- C9: once stop_recording has cleared still_recording, every further
delivered trailing event is ignored entirely (trailing_event returns the
state unchanged), and from any reachable stopped state an arbitrary further
trace changes nothing at all, so no record is written to the sinks after
finalisation begins. -/
theorem C9_no_writes_after_stop :
    (∀ (tubid_s : String) (s : ReporterState) (rx : Int) (ev : Event),
      s.still_recording = false → trailing_event tubid_s s rx ev = s) ∧
    (∀ (tubid_s : String) (as trailing : List Action),
      (run tubid_s initReporter as).still_recording = false →
      run tubid_s (run tubid_s initReporter as) trailing =
        run tubid_s initReporter as) := by
  constructor
  · intro tubid_s s rx ev hs
    simp [trailing_event, hs]
  · intro tubid_s as trailing hs
    have hinv := inv_run tubid_s as initReporter inv_init
    exact run_frozen tubid_s trailing _ hs (hinv.2.2.2.1 hs).2.1

/-- C9 witness: a freshly stopped reporter ignores a delivery, and after
the count path has stopped a run, three further deliveries change nothing. -/
theorem C9_no_writes_after_stop_witness :
    trailing_event "tub" (stop_recording initReporter) 0 evA =
      stop_recording initReporter ∧
    run "tub" (run "tub" initReporter (manyEvents 101)) (manyEvents 3) =
      run "tub" initReporter (manyEvents 101) :=
  ⟨C9_no_writes_after_stop.1 "tub" (stop_recording initReporter) 0 evA rfl,
   C9_no_writes_after_stop.2 "tub" (manyEvents 101) (manyEvents 3) (by decide)⟩

/-- C10: a run of at most TRAILING_EVENT_LIMIT deliveries writes every
delivered event and never stops through the count path (still recording, no
finalisation scheduled), so only the TRAILING_DELAY timer expiry then stops
recording; the count path fires only on a delivery past the limit: after
exactly 100 deliveries, one further delivery schedules finalisation and
writes nothing more. -/
theorem C10_exact_limit_edge :
    (∀ (tubid_s : String) (as : List Action),
      (∀ a ∈ as, isDeliver a = true) →
      (as.length : Int) ≤ TRAILING_EVENT_LIMIT →
      (run tubid_s initReporter as).written.length = as.length ∧
      (run tubid_s initReporter as).still_recording = true ∧
      (run tubid_s initReporter as).finishedScheduled = 0 ∧
      (run tubid_s initReporter (as ++ [Action.timerFires])).finishedScheduled = 1) ∧
    (∀ (tubid_s : String) (as : List Action) (rx : Int) (ev : Event),
      (∀ a ∈ as, isDeliver a = true) → as.length = 100 →
      (run tubid_s initReporter (as ++ [Action.deliver rx ev])).finishedScheduled = 1 ∧
      (run tubid_s initReporter (as ++ [Action.deliver rx ev])).written =
        (run tubid_s initReporter as).written) := by
  constructor
  · intro tubid_s as hall hlen
    have hrun := run_delivers tubid_s as initReporter hall rfl
      (by
        show (as.length : Int) ≤ TRAILING_EVENT_LIMIT
        exact hlen)
    have happ : run tubid_s initReporter (as ++ [Action.timerFires]) =
        step tubid_s (run tubid_s initReporter as) Action.timerFires := by
      simp [run, List.foldl_append]
    refine ⟨?_, ?_, ?_, ?_⟩
    · rw [hrun]
      show (([] : List Record) ++ deliveredRecords tubid_s as).length = as.length
      rw [List.nil_append]
      exact deliveredRecords_length tubid_s as hall
    · rw [hrun]
      rfl
    · rw [hrun]
      rfl
    · rw [happ, hrun]
      rfl
  · intro tubid_s as rx ev hall hlen100
    have hrun := run_delivers tubid_s as initReporter hall rfl
      (by
        show (as.length : Int) ≤ TRAILING_EVENT_LIMIT
        rw [hlen100]
        decide)
    have happ : run tubid_s initReporter (as ++ [Action.deliver rx ev]) =
        trailing_event tubid_s (run tubid_s initReporter as) rx ev := by
      simp [run, List.foldl_append, step]
    rw [happ, hrun, hlen100]
    exact ⟨rfl, rfl⟩

/-- C10 witness: exactly 100 deliveries are all written with no count-path
stop, the timer then finalises, and a 101st delivery finalises instead. -/
theorem C10_exact_limit_edge_witness :
    (run "tub" initReporter (manyEvents 100)).written.length =
      (manyEvents 100).length ∧
    (run "tub" initReporter (manyEvents 100)).still_recording = true ∧
    (run "tub" initReporter (manyEvents 100)).finishedScheduled = 0 ∧
    (run "tub" initReporter
      (manyEvents 100 ++ [Action.timerFires])).finishedScheduled = 1 ∧
    (run "tub" initReporter
      (manyEvents 100 ++ [Action.deliver 0 evA])).finishedScheduled = 1 :=
  ⟨(C10_exact_limit_edge.1 "tub" (manyEvents 100) (by decide) (by decide)).1,
   (C10_exact_limit_edge.1 "tub" (manyEvents 100) (by decide) (by decide)).2.1,
   (C10_exact_limit_edge.1 "tub" (manyEvents 100) (by decide) (by decide)).2.2.1,
   (C10_exact_limit_edge.1 "tub" (manyEvents 100) (by decide) (by decide)).2.2.2,
   (C10_exact_limit_edge.2 "tub" (manyEvents 100) 0 evA (by decide) (by decide)).1⟩

/-- Distinct indices below 16 select distinct token characters. -/
theorem tokenAlphabet_getD_inj :
    ∀ i < 16, ∀ j < 16,
      tokenAlphabet.getD i '0' = tokenAlphabet.getD j '0' → i = j := by
  decide

/-- The per-byte token encoding is injective on byte values. -/
theorem encodeByte_inj (b1 b2 : Nat) (h1 : b1 < 256) (h2 : b2 < 256)
    (he : encodeByte b1 = encodeByte b2) : b1 = b2 := by
  simp only [encodeByte, List.cons.injEq, and_true] at he
  obtain ⟨ha, hb⟩ := he
  have d1 := tokenAlphabet_getD_inj (b1 / 16 % 16) (by omega) (b2 / 16 % 16)
    (by omega) ha
  have d2 := tokenAlphabet_getD_inj (b1 % 16) (by omega) (b2 % 16) (by omega) hb
  omega

/-- The token character sequence determines the byte sequence, for byte
lists of equal length. -/
theorem tokenChars_inj (bs1 : List Nat) :
    ∀ bs2 : List Nat, bs1.length = bs2.length →
      (∀ b ∈ bs1, b < 256) → (∀ b ∈ bs2, b < 256) →
      tokenChars bs1 = tokenChars bs2 → bs1 = bs2 := by
  induction bs1 with
  | nil =>
    intro bs2 hl _ _ _
    cases bs2 with
    | nil => rfl
    | cons b t => simp at hl
  | cons b1 t1 ih =>
    intro bs2 hl hb1 hb2 he
    cases bs2 with
    | nil => simp at hl
    | cons b2 t2 =>
      simp only [tokenChars, List.map_cons, List.flatten_cons, encodeByte,
        List.cons_append, List.nil_append, List.cons.injEq] at he
      obtain ⟨ha, hb, hrest⟩ := he
      have hbyte : b1 = b2 := by
        apply encodeByte_inj b1 b2 (hb1 b1 (List.mem_cons_self _ _))
          (hb2 b2 (List.mem_cons_self _ _))
        simp only [encodeByte, List.cons.injEq, and_true]
        exact ⟨ha, hb⟩
      have htail : t1 = t2 := by
        apply ih t2 (by simpa using hl)
          (fun b hbm => hb1 b (List.mem_cons_of_mem _ hbm))
          (fun b hbm => hb2 b (List.mem_cons_of_mem _ hbm))
        simpa [tokenChars] using hrest
      rw [hbyte, htail]

/-- The token string determines the byte sequence, for byte lists of equal
length. -/
theorem tokenEncode_inj (bs1 bs2 : List Nat) (hl : bs1.length = bs2.length)
    (hb1 : ∀ b ∈ bs1, b < 256) (hb2 : ∀ b ∈ bs2, b < 256)
    (he : tokenEncode bs1 = tokenEncode bs2) : bs1 = bs2 := by
  apply tokenChars_inj bs1 bs2 hl hb1 hb2
  have hd := congrArg String.data he
  simpa [tokenEncode] using hd

/-- Equal derived filenames for the same second force equal token strings. -/
theorem incidentFilename_token_eq (timeStr : String) (r1 r2 : List Nat)
    (he : incidentFilename timeStr r1 = incidentFilename timeStr r2) :
    tokenEncode r1 = tokenEncode r2 := by
  have hd := congrArg String.data he
  simp only [incidentFilename, String.data_append] at hd
  have h1 := List.append_cancel_right hd
  have h2 := List.append_cancel_left h1
  exact String.ext_iff.mpr h2

/-- C8 counterexample: the claim that the random token guarantees distinct
filenames for any two incidents declared in the same second is false on the
code: the two declarations draw their 4 random bytes independently, and
when the draws coincide (as for the all-zero draw) the derived filenames
are identical. -/
theorem C8_same_second_collision_possible :
    ¬ (∀ (timeStr : String) (r1 r2 : List Nat),
        r1.length = 4 → r2.length = 4 →
        (∀ b ∈ r1, b < 256) → (∀ b ∈ r2, b < 256) →
        incidentFilename timeStr r1 ≠ incidentFilename timeStr r2) := by
  intro hclaim
  exact hclaim "2015-01-01-000000" [0, 0, 0, 0] [0, 0, 0, 0] rfl rfl
    (by decide) (by decide) rfl

/-- C8 amended: incident_declared derives the filename
incident-TIME-TOKEN.flog, and whenever two incidents declared within the
same second draw distinct 4-byte random values, the derived filenames are
distinct; only coinciding random draws can collide. -/
theorem C8_distinct_tokens_distinct_filenames (timeStr : String)
    (r1 r2 : List Nat) (hl1 : r1.length = 4) (hl2 : r2.length = 4)
    (hb1 : ∀ b ∈ r1, b < 256) (hb2 : ∀ b ∈ r2, b < 256) (hne : r1 ≠ r2) :
    incidentFilename timeStr r1 =
      "incident-" ++ timeStr ++ "-" ++ tokenEncode r1 ++ ".flog" ∧
    incidentFilename timeStr r1 ≠ incidentFilename timeStr r2 := by
  refine ⟨rfl, ?_⟩
  intro he
  exact hne (tokenEncode_inj r1 r2 (by omega) hb1 hb2
    (incidentFilename_token_eq timeStr r1 r2 he))

/-- C8 amended witness: the draws 00000000 and 00000001 in the same second
give distinct filenames. -/
theorem C8_distinct_tokens_distinct_filenames_witness :
    incidentFilename "2015-01-01-000000" [0, 0, 0, 0] =
      "incident-" ++ "2015-01-01-000000" ++ "-" ++
        tokenEncode [0, 0, 0, 0] ++ ".flog" ∧
    incidentFilename "2015-01-01-000000" [0, 0, 0, 0] ≠
      incidentFilename "2015-01-01-000000" [0, 0, 0, 1] :=
  C8_distinct_tokens_distinct_filenames "2015-01-01-000000" [0, 0, 0, 0]
    [0, 0, 0, 1] rfl rfl (by decide) (by decide) (by decide)

end FoolscapIncident
